import Mathlib

/-!
Verification of the gscrib G-code host communication core.

This file gives a shallow embedding, in Lean 4, of the components of the
`gscrib.host` package that the verified properties talk about:

* `QuotaTracker` (src/gscrib/host/scheduler/quota_tracker.py)
* `Command` (src/gscrib/host/scheduler/command.py)
* `CommandTracker` (src/gscrib/host/scheduler/command_tracker.py)
* `EventParser.extract_line_number` / `extract_fields`
  (src/gscrib/host/protocol/event_parser.py)
* `EventDispatcher` (src/gscrib/host/protocol/event_dispatcher.py)
* `DeviceFeedbackEvent.fields` (src/gscrib/host/protocol/events.py)
* `GCodeHost` (src/gscrib/host/gcode_host.py)

Python strings are modelled as `List Char` (Unicode scalar values with the
ASCII-range case and whitespace behaviour, which agrees with Python on the
ASCII strings the protocol exchanges).  Python ints are modelled as `Int`
or `Nat`.  Code that raises exceptions is modelled with `Except`/`Option`
result types, or as explicit outcome sums; when a Python method raises
before mutating any state, the embedded transition leaves the state
unchanged.  Thread-synchronisation waits (condition variables, events) are
modelled by sequentialising: a blocking call either proceeds because its
condition holds or leaves the state unchanged (timeout), and interleavings
by other threads are represented as explicit operation sequences.

A few names referenced by the host and its test suite are absent from the
`src` snapshot (`gscrib/host/scheduler/task_priority.py`,
`QuotaTracker.pending`, `StreamingMode`); those definitions are modelled
from the spec and are marked `Modelled from the spec:` in their doc
comments.
-/

namespace Gscrib

/-! ## QuotaTracker (src/gscrib/host/scheduler/quota_tracker.py)

State: `_max_bytes`, `_free_bytes` and the deque `_in_flight` of reserved
sizes (appended on the right by `consume`, popped on the left by
`reclaim`).  Sizes and byte counts are Python ints, modelled as `Int`.
-/

structure QuotaTracker where
  max_bytes : Int
  free_bytes : Int
  in_flight : List Int
  deriving Repr, DecidableEq

namespace QuotaTracker

/-- `QuotaTracker.__init__`: validates `max_bytes > 0` (raising
`ValueError` otherwise) and starts with an empty in-flight deque and the
whole capacity free. -/
def init (max_bytes : Int) : Except Unit QuotaTracker :=
  if max_bytes ≤ 0 then .error ()
  else .ok ⟨max_bytes, max_bytes, []⟩

/-- `QuotaTracker.consume(size, timeout)`: validates `timeout > 0` and
`0 < size ≤ max_bytes` (raising `ValueError`, state untouched), then waits
until `free_bytes ≥ size`; on success appends `size` to `_in_flight` and
decrements `_free_bytes`.  In the sequential model the successful branch
requires `free_bytes ≥ size` to hold now; a timed-out or invalid call
leaves the state unchanged (the Python method raises before mutating). -/
def consume (q : QuotaTracker) (size : Int) : QuotaTracker :=
  if size ≤ 0 then q
  else if q.max_bytes < size then q
  else if q.free_bytes < size then q
  else { q with in_flight := q.in_flight ++ [size],
                free_bytes := q.free_bytes - size }

/-- `QuotaTracker.reclaim()`: if `_in_flight` is non-empty, pops the
oldest reservation (left end of the deque) and returns its size to
`_free_bytes`; otherwise a no-op. -/
def reclaim (q : QuotaTracker) : QuotaTracker :=
  match q.in_flight with
  | [] => q
  | size :: rest =>
      { q with in_flight := rest, free_bytes := q.free_bytes + size }

/-- `QuotaTracker.join()`: blocks while `_in_flight` is non-empty; never
mutates the state. -/
def join (q : QuotaTracker) : QuotaTracker := q

/-- `QuotaTracker.flush()`: clears `_in_flight` and restores
`_free_bytes = _max_bytes`. -/
def flush (q : QuotaTracker) : QuotaTracker :=
  { q with in_flight := [], free_bytes := q.max_bytes }

/-- Modelled from the spec: `QuotaTracker.pending()` is called by
`GCodeHost.is_busy` but the method itself is missing from
`src/gscrib/host/scheduler/quota_tracker.py`.  The spec defines it as
"`pending()`: true iff `in_flight` non-empty". -/
def pending (q : QuotaTracker) : Bool :=
  !q.in_flight.isEmpty

/-- One observable operation on a quota tracker. -/
inductive Op where
  | consume (size : Int)
  | reclaim
  | join
  | flush
  deriving Repr, DecidableEq

/-- Applies one operation to the tracker state. -/
def step (q : QuotaTracker) : Op → QuotaTracker
  | .consume size => q.consume size
  | .reclaim => q.reclaim
  | .join => q.join
  | .flush => q.flush

/-- Runs a sequence of operations from a state. -/
def run (q : QuotaTracker) (ops : List Op) : QuotaTracker :=
  ops.foldl step q

/-- The accounting invariant maintained by the tracker, together with the
auxiliary facts (positivity of the recorded sizes) needed to preserve it. -/
def Inv (q : QuotaTracker) : Prop :=
  0 ≤ q.free_bytes ∧ q.free_bytes + q.in_flight.sum = q.max_bytes ∧
    ∀ s ∈ q.in_flight, 0 < s

end QuotaTracker

/-! ## Python string primitives

Helpers mirroring the string operations used by `Command._normalize_gcode`
and the parsers: `str.strip`, `str.upper`, decimal formatting of ints, and
the XOR over ASCII bytes from `Command._xor_checksum`.
-/

/-- Characters removed by Python `str.strip()` (on ASCII text). -/
def pySpace (c : Char) : Bool :=
  c = ' ' ∨ c = '\t' ∨ c = '\n' ∨ c = '\r' ∨ c = '\x0b' ∨ c = '\x0c'

/-- Python `str.strip()`: drops leading and trailing whitespace. -/
def pyStrip (s : List Char) : List Char :=
  ((s.dropWhile pySpace).reverse.dropWhile pySpace).reverse

/-- Python `str.upper()` on ASCII text: maps `a`-`z` to `A`-`Z`. -/
def pyUpper (s : List Char) : List Char :=
  s.map Char.toUpper

/-- Decimal digit predicate (regex `\d` on ASCII text, code points 48
to 57). -/
def isDigitChar (c : Char) : Bool :=
  48 ≤ c.toNat ∧ c.toNat ≤ 57

/-- Python `int()` on a string of decimal digits. -/
def digitsToNat (ds : List Char) : Nat :=
  ds.foldl (fun a c => 10 * a + (c.toNat - 48)) 0

/-- Decimal rendering of a natural number, on fuel (any bound above the
number of digits; structural recursion keeps the definition kernel
evaluable). -/
def natDecF : Nat → Nat → List Char
  | 0, _ => []
  | fuel + 1, n =>
      if n < 10 then [Char.ofNat (48 + n)]
      else natDecF fuel (n / 10) ++ [Char.ofNat (48 + n % 10)]

/-- Decimal rendering of a natural number (Python `f"{n}"`). -/
def natDec (n : Nat) : List Char :=
  natDecF (n + 1) n

/-- Decimal rendering of a Python int (`f"{i}"`). -/
def intDec (i : Int) : List Char :=
  if i < 0 then '-' :: natDec i.natAbs else natDec i.toNat

/-- `Command._xor_checksum`: XOR over the ASCII bytes of the line
(`reduce(operator.xor, bytearray(line, "ascii"), 0)`).  Faithful for
ASCII strings, where each byte is the character's code point. -/
def xorChecksum (s : List Char) : Nat :=
  s.foldl (fun a c => a ^^^ c.toNat) 0

/-! ## Command (src/gscrib/host/scheduler/command.py) -/

/-- A frozen `Command` dataclass value: line number, (normalized)
instruction and the signing flag. -/
structure Command where
  line_number : Int
  instruction : List Char
  signed : Bool
  deriving Repr, DecidableEq

/-- Scans the characters following a `(` for the closing `)` of the
non-greedy match of `\(.*?\)` (with `.` not matching a newline): returns
the remainder after the first `)` if one occurs before a newline. -/
def findInlineClose : List Char → Option (List Char)
  | [] => none
  | c :: rest =>
      if c = ')' then some rest
      else if c = '\n' then none
      else findInlineClose rest

/-- `_RE_INLINE_COMMENT.sub('', s)`: removes every non-overlapping match
of `\(.*?\)`, scanning left to right; a `(` with no `)` before the next
newline is kept.  Runs on fuel (an upper bound on the length). -/
def stripInlineCommentsF : Nat → List Char → List Char
  | 0, s => s
  | _ + 1, [] => []
  | fuel + 1, c :: rest =>
      if c = '(' then
        match findInlineClose rest with
        | some rem => stripInlineCommentsF fuel rem
        | none => c :: stripInlineCommentsF fuel rest
      else c :: stripInlineCommentsF fuel rest

/-- `_RE_INLINE_COMMENT.sub('', s)` at adequate fuel. -/
def stripInlineComments (s : List Char) : List Char :=
  stripInlineCommentsF s.length s

/-- `_RE_LINE_COMMENT.sub('', s)` with `re.MULTILINE`: in every
newline-separated line, drops everything from the first `;` on. -/
def stripLineComments (s : List Char) : List Char :=
  List.intercalate ['\n']
    ((s.splitOn '\n').map (fun line => line.takeWhile (· ≠ ';')))

/-- `Command._normalize_gcode`: fold `\r` to `\n`, strip inline `(...)`
comments, strip `;...` line comments, trim surrounding whitespace,
uppercase. -/
def normalizeGcode (raw : List Char) : List Char :=
  pyUpper (pyStrip (stripLineComments (stripInlineComments
    (raw.map (fun c => if c = '\r' then '\n' else c)))))

/-- Errors raised by `Command.__post_init__`. -/
inductive CommandError where
  | emptyCommand
  | multipleCommands
  deriving Repr, DecidableEq

/-- `Command(line_number, instruction, signed)` including the
`__post_init__` validation: an empty input raises `EmptyCommand`; then
the instruction is normalized; a normalized string containing a newline
raises `MultipleCommands`; an empty normalized string raises
`EmptyCommand`; otherwise the normalized string is stored. -/
def Command.build (line_number : Int) (raw : List Char) (signed : Bool) :
    Except CommandError Command :=
  if raw.isEmpty then .error .emptyCommand
  else
    let clean := normalizeGcode raw
    if clean.contains '\n' then .error .multipleCommands
    else if clean.isEmpty then .error .emptyCommand
    else .ok ⟨line_number, clean, signed⟩

/-- The `f"N{self.line_number} {self.instruction}"` prefix from
`Command._format_with_checksum`. -/
def Command.numberedLine (c : Command) : List Char :=
  'N' :: intDec c.line_number ++ ' ' :: c.instruction

/-- `Command._format_with_checksum`: the numbered line followed by `*`
and the decimal checksum of the numbered line. -/
def Command.formatWithChecksum (c : Command) : List Char :=
  c.numberedLine ++ '*' :: natDec (xorChecksum c.numberedLine)

/-- `Command.format_line`: the instruction as-is when unsigned, the
checksummed form when signed. -/
def Command.format_line (c : Command) : List Char :=
  if c.signed then c.formatWithChecksum else c.instruction

/-! ## EventParser.extract_line_number
(src/gscrib/host/protocol/event_parser.py)

`_RE_LINE_NUMBER = re.compile(r'N?:?(\d+)')`, used through
`_RE_LINE_NUMBER.search(raw_response)`.
-/

/-- Drops one leading occurrence of `c` if present (regex `c?`). -/
def dropOpt (c : Char) : List Char → List Char
  | [] => []
  | x :: rest => if x = c then rest else x :: rest

/-- Attempts the regex `N?:?(\d+)` anchored at the head of `s`; returns
the captured digit group on success.  (For this pattern the greedy
left-to-right attempt agrees with backtracking: shorter choices for `N?`
and `:?` leave a non-digit at the head whenever the greedy choice
does.) -/
def tryLineNumberAt (s : List Char) : Option (List Char) :=
  if ((dropOpt ':' (dropOpt 'N' s)).takeWhile isDigitChar).isEmpty then
    none
  else some ((dropOpt ':' (dropOpt 'N' s)).takeWhile isDigitChar)

/-- `re.search` for `N?:?(\d+)`: tries the pattern at every position,
left to right, returning the first captured group. -/
def searchLineNumber : List Char → Option (List Char)
  | [] => none
  | c :: rest =>
      match tryLineNumberAt (c :: rest) with
      | some ds => some ds
      | none => searchLineNumber rest

/-- `EventParser.extract_line_number`: the first `N?:?(\d+)` match parsed
as an int, or `-1` if the pattern is absent. -/
def extract_line_number (s : List Char) : Int :=
  match searchLineNumber s with
  | some ds => (digitsToNat ds : Int)
  | none => -1

/-! ## CommandTracker (src/gscrib/host/scheduler/command_tracker.py)

`_entries` is an `OrderedDict` keyed by line number, modelled as an
insertion-ordered association list.
-/

structure CommandTracker where
  entries : List (Int × Command)
  limit : Nat
  deriving Repr, DecidableEq

namespace CommandTracker

/-- `CommandTracker(limit)`: empty history. -/
def empty (limit : Nat) : CommandTracker :=
  ⟨[], limit⟩

/-- Whether a key is present in the entries. -/
def containsKey (entries : List (Int × Command)) (n : Int) : Bool :=
  entries.any (fun e => e.1 = n)

/-- The `while len(self._entries) > self._limit:
self._entries.popitem(last=False)` loop: evicts oldest entries until
within the limit. -/
def trimOldest (limit : Nat) (entries : List (Int × Command)) :
    List (Int × Command) :=
  if limit < entries.length then
    match entries with
    | [] => []
    | _ :: rest => trimOldest limit rest
  else entries
  termination_by entries.length

/-- `OrderedDict.__setitem__`: replaces the value in place when the key
exists (preserving its position), appends at the end otherwise. -/
def setEntry (entries : List (Int × Command)) (cmd : Command) :
    List (Int × Command) :=
  if containsKey entries cmd.line_number then
    entries.map (fun e => if e.1 = cmd.line_number then (e.1, cmd) else e)
  else entries ++ [(cmd.line_number, cmd)]

/-- `CommandTracker.record`: insert/replace keyed by
`command.line_number`, then evict oldest entries while over the limit. -/
def record (t : CommandTracker) (cmd : Command) : CommandTracker :=
  ⟨trimOldest t.limit (setEntry t.entries cmd), t.limit⟩

/-- `CommandTracker.fetch`: the stored command for a line number, or a
`KeyError` when absent. -/
def fetch (t : CommandTracker) (n : Int) : Except Unit Command :=
  match t.entries.find? (fun e => e.1 = n) with
  | some e => .ok e.2
  | none => .error ()

end CommandTracker

/-! ## Task scheduling (src/gscrib/host/scheduler/send_task.py)

`task_priority.py` is imported by the scheduler package but the file is
absent from the `src` snapshot, so the priority enum is modelled from the
spec.
-/

/-- Modelled from the spec: `TaskPriority`
(gscrib/host/scheduler/task_priority.py, missing from src).  The spec
gives the priority set as `SYSTEM, NORMAL` with `SYSTEM < NORMAL`
(system tasks preempt). -/
inductive TaskPriority where
  | system
  | normal
  deriving Repr, DecidableEq

/-- The numeric rank ordering `SYSTEM < NORMAL`. -/
def TaskPriority.rank : TaskPriority → Nat
  | .system => 0
  | .normal => 1

/-- `SendTask`: a named tuple `(priority, sequence_number, command)`,
ordered lexicographically by the priority queue. -/
structure SendTask where
  priority : TaskPriority
  sequence_number : Nat
  command : Command
  deriving Repr, DecidableEq

/-! ## Streaming mode (spec §4.7)

`StreamingMode` and the `streaming_mode` property are referenced by the
test suite (`from gscrib.host.gcode_host import StreamingMode`) but are
absent from `src/gscrib/host/gcode_host.py`; the mode table is modelled
from the spec.  The `src` snapshot's `_prepare_for_acknowledgment` hard
codes the AUTOMATIC row (`if not self._connection.can_stream_commands():
self._clear_signal.clear()`).
-/

/-- Modelled from the spec: the `streaming_mode` enum with values
AUTOMATIC, ASYNCHRONOUS and SYNCHRONOUS. -/
inductive StreamingMode where
  | automatic
  | asynchronous
  | synchronous
  deriving Repr, DecidableEq

/-- Modelled from the spec: whether the sender must wait for an
acknowledgment after a send, per the streaming-mode table —
ASYNCHRONOUS never waits, SYNCHRONOUS always waits, AUTOMATIC waits
exactly when the connection cannot stream commands. -/
def waitsForAck (mode : StreamingMode) (can_stream_commands : Bool) : Bool :=
  match mode with
  | .asynchronous => false
  | .synchronous => true
  | .automatic => !can_stream_commands

/-- Modelled from the spec: `GCodeHost._prepare_for_acknowledgment` under
a streaming mode clears `clear_signal` exactly when the effective mode
says to wait; returns the new value of the signal. -/
def prepareForAcknowledgment (mode : StreamingMode)
    (can_stream_commands clear_signal : Bool) : Bool :=
  if waitsForAck mode can_stream_commands then false else clear_signal

/-- `GCodeHost._prepare_for_acknowledgment` as written in the `src`
snapshot: clears `clear_signal` iff the connection cannot stream
commands; returns the new value of the signal. -/
def prepareForAcknowledgmentSrc (can_stream_commands clear_signal : Bool) :
    Bool :=
  if !can_stream_commands then false else clear_signal

/-! ## EventDispatcher (src/gscrib/host/protocol/event_dispatcher.py)

The event classes of `events.py` are modelled as a fixed type hierarchy;
`isinstance` checks become a superclass table.  A handler is modelled by
an identifier plus whether calling it raises; `dispatch` records the
identifiers it invoked, in order, and the identifier of the handler whose
exception propagated (if any).
-/

/-- The event classes of `src/gscrib/host/protocol/events.py`. -/
inductive EventType where
  | hostEvent
  | hostExceptionEvent
  | deviceEvent
  | deviceBusyEvent
  | deviceDebugEvent
  | deviceErrorEvent
  | deviceReadyEvent
  | deviceOnlineEvent
  | deviceWaitEvent
  | deviceFaultEvent
  | deviceFeedbackEvent
  | deviceResendEvent
  deriving Repr, DecidableEq

namespace EventType

/-- The superclasses of each event class, the class itself included:
`HostEvent` is the root, `HostExceptionEvent` derives from it directly,
and every `Device*Event` derives from `DeviceEvent`, which derives from
`HostEvent`. -/
def superClasses : EventType → List EventType
  | hostEvent => [hostEvent]
  | hostExceptionEvent => [hostExceptionEvent, hostEvent]
  | deviceEvent => [deviceEvent, hostEvent]
  | deviceBusyEvent => [deviceBusyEvent, deviceEvent, hostEvent]
  | deviceDebugEvent => [deviceDebugEvent, deviceEvent, hostEvent]
  | deviceErrorEvent => [deviceErrorEvent, deviceEvent, hostEvent]
  | deviceReadyEvent => [deviceReadyEvent, deviceEvent, hostEvent]
  | deviceOnlineEvent => [deviceOnlineEvent, deviceEvent, hostEvent]
  | deviceWaitEvent => [deviceWaitEvent, deviceEvent, hostEvent]
  | deviceFaultEvent => [deviceFaultEvent, deviceEvent, hostEvent]
  | deviceFeedbackEvent => [deviceFeedbackEvent, deviceEvent, hostEvent]
  | deviceResendEvent => [deviceResendEvent, deviceEvent, hostEvent]

/-- `isinstance(event, ty)` for an event whose concrete class is `cls`. -/
def isInstance (cls ty : EventType) : Bool :=
  (superClasses cls).contains ty

end EventType

/-- A registered handler: an identity plus whether invoking it raises. -/
structure Handler where
  hid : Nat
  raises : Bool
  deriving Repr, DecidableEq

/-- The dispatcher registry `_handlers`: a `defaultdict(list)` iterated in
key-insertion order, modelled as an ordered association list from event
type to the handlers registered for it, in registration order. -/
abbrev Subscriptions := List (EventType × List Handler)

/-- The target-collection loop of `EventDispatcher.dispatch`: walks the
registry in key order and gathers the handler lists of every type the
event is an instance of. -/
def collectTargets (subs : Subscriptions) (cls : EventType) : List Handler :=
  ((subs.filter (fun s => EventType.isInstance cls s.1)).map
    (fun s => s.2)).flatten

/-- The invocation loop `for handler in targets: handler(event)`: each
handler runs in turn; a raising handler ends the loop and its exception
propagates to the caller.  Returns the identifiers of the handlers that
were invoked (the raising one included) and the identifier of the raising
handler, if any. -/
def runHandlers : List Handler → List Nat × Option Nat
  | [] => ([], none)
  | h :: rest =>
      if h.raises then ([h.hid], some h.hid)
      else
        let r := runHandlers rest
        (h.hid :: r.1, r.2)

/-- `EventDispatcher.dispatch` for an event of concrete class `cls`. -/
def dispatch (subs : Subscriptions) (cls : EventType) :
    List Nat × Option Nat :=
  runHandlers (collectTargets subs cls)

/-! ## EventParser.extract_fields
(src/gscrib/host/protocol/event_parser.py) and
`DeviceFeedbackEvent.fields` (src/gscrib/host/protocol/events.py)

`_RE_PARAMETER = re.compile(r'([A-Za-z0-9@]+):([\d.,\-]+)')`, used through
`findall`; values are converted with `float()` and may raise `ValueError`.
Numeric values are modelled as exact rationals.
-/

/-- The key character class `[A-Za-z0-9@]`. -/
def isKeyChar (c : Char) : Bool :=
  ('A' ≤ c ∧ c ≤ 'Z') ∨ ('a' ≤ c ∧ c ≤ 'z') ∨ ('0' ≤ c ∧ c ≤ '9') ∨ c = '@'

/-- The value character class `[\d.,\-]`. -/
def isValueChar (c : Char) : Bool :=
  isDigitChar c ∨ c = '.' ∨ c = ',' ∨ c = '-'

/-- `_RE_PARAMETER.findall`: scans left to right; at a key-class
character takes the maximal key run, requires a `:` and then a non-empty
maximal value run; on success continues after the value, on failure
advances one character.  (Greedy matching agrees with the engine's
backtracking for this pattern: any shorter key run is followed by a
key-class character, not `:`.)  Runs on fuel (an upper bound on the
length). -/
def findPairsF : Nat → List Char → List (List Char × List Char)
  | 0, _ => []
  | _ + 1, [] => []
  | fuel + 1, c :: rest =>
      if isKeyChar c then
        match (c :: rest).dropWhile isKeyChar with
        | ':' :: rest2 =>
            let v := rest2.takeWhile isValueChar
            if v.isEmpty then findPairsF fuel rest
            else ((c :: rest).takeWhile isKeyChar, v) ::
              findPairsF fuel (rest2.dropWhile isValueChar)
        | _ => findPairsF fuel rest
      else findPairsF fuel rest

/-- `_RE_PARAMETER.findall` at adequate fuel. -/
def findPairs (s : List Char) : List (List Char × List Char) :=
  findPairsF s.length s

/-- The exact value of a parsed Python float literal: sign, integer
digits, fractional digits and the fractional length (the represented
number is `(-1)^neg * (intPart + fracNum / 10^fracLen)`).  The host never
computes with these values, so the parse record is kept as-is. -/
structure PyFloat where
  neg : Bool
  intPart : Nat
  fracNum : Nat
  fracLen : Nat
  deriving Repr, DecidableEq, Inhabited

/-- Python `float()` on a string drawn from the `[\d.\-]` alphabet:
an optional minus sign, then digits with at most one decimal point and at
least one digit; anything else raises `ValueError`. -/
def pyFloat (s : List Char) : Option PyFloat :=
  let t := match s with
    | '-' :: r => r
    | r => r
  let ip := t.takeWhile isDigitChar
  let t2 := t.dropWhile isDigitChar
  let fracOk : Option (List Char) := match t2 with
    | [] => some []
    | '.' :: t3 =>
        if t3.dropWhile isDigitChar = [] then some (t3.takeWhile isDigitChar)
        else none
    | _ => none
  match fracOk with
  | none => none
  | some fp =>
      if ip.isEmpty ∧ fp.isEmpty then none
      else
        some ⟨s.head? = some '-', digitsToNat ip, digitsToNat fp,
          fp.length⟩

/-- `tuple(map(float, value.split(",")))`: every comma-separated part must
parse as a float, else `ValueError`. -/
def floatParts (value : List Char) : Except Unit (List PyFloat) :=
  (value.splitOn ',').mapM (fun p =>
    match pyFloat p with
    | some q => Except.ok q
    | none => Except.error ())

/-- `dict.setdefault(key, val)` on an insertion-ordered map: first
occurrence wins. -/
def setdefault (m : List (List Char × PyFloat)) (key : List Char)
    (val : PyFloat) : List (List Char × PyFloat) :=
  if m.any (fun e => e.1 = key) then m else m ++ [(key, val)]

/-- `_ORDERED_AXES = ("X", "Y", "Z")`. -/
def orderedAxes : List (List Char) :=
  [['X'], ['Y'], ['Z']]

/-- The body of the `for key, value in _RE_PARAMETER.findall(...)` loop
in `EventParser.extract_fields`, for one key/value pair. -/
def processPair (startsAngle : Bool) (m : List (List Char × PyFloat))
    (key value : List Char) :
    Except Unit (List (List Char × PyFloat)) := do
  let parts ← floatParts value
  if key = "MPos".toList ∨ key = "WPos".toList ∨ key = "PRB".toList then
    return (orderedAxes.zip parts).foldl
      (fun acc av => setdefault acc av.1 av.2) m
  else if key = "FS".toList ∧ startsAngle then
    if h : parts.length = 2 then
      return setdefault (setdefault m ['F'] (parts.get ⟨0, by omega⟩))
        ['S'] (parts.get ⟨1, by omega⟩)
    else
      Except.error ()
  else if (key.head?.elim false fun c => ('A' ≤ c ∧ c ≤ 'Z') ∨ c = '@') then
    return setdefault m key (parts.headI)
  else
    return m

/-- `EventParser.extract_fields`: folds every matched pair through
`processPair`; the `FS` branch applies only when the raw message starts
with `<`. -/
def extract_fields (msg : List Char) :
    Except Unit (List (List Char × PyFloat)) :=
  (findPairs msg).foldlM
    (fun m kv => processPair (msg.head? = some '<') m kv.1 kv.2) []

/-- `DeviceFeedbackEvent.fields`: `extract_fields` on the raw message,
with a `ValueError` from a malformed message absorbed into the empty
map. -/
def deviceFeedbackFields (msg : List Char) :
    List (List Char × PyFloat) :=
  match extract_fields msg with
  | .ok m => m
  | .error _ => []

/-! ## GCodeHost (src/gscrib/host/gcode_host.py)

The host state visible to the verified operations: the priority send
queue (modelled as the list of queued tasks in arrival order), the
command history, the quota tracker, the three signals and the two
counters.  `itertools.count` counters hold the value `next()` will
return.
-/

structure HostState where
  send_queue : List SendTask
  send_history : CommandTracker
  send_quota : QuotaTracker
  clear_signal : Bool
  online_signal : Bool
  shutdown_signal : Bool
  line_counter : Int
  task_counter : Nat
  sign_commands : Bool
  deriving Repr, DecidableEq

namespace GCodeHost

/-- `GCodeHost.__init__` state: empty queue, history with the default
limit 127, quota with the default capacity 127, all signals clear,
`_line_counter = itertools.count(1)`, `_task_counter = itertools.count()`,
signing disabled. -/
def initState : HostState :=
  ⟨[], CommandTracker.empty 127, ⟨127, 127, []⟩, false, false, false,
    1, 0, false⟩

/-- `GCodeHost.is_busy`: false during shutdown; true when the send queue
is non-empty; otherwise the quota tracker's `pending()`. -/
def is_busy (s : HostState) : Bool :=
  if s.shutdown_signal then false
  else if !s.send_queue.isEmpty then true
  else s.send_quota.pending

/-- `GCodeHost._build_command`: reads the signing flag, draws the next
value of the session line counter, then constructs (and validates) the
`Command`.  The counter advances whether or not validation succeeds. -/
def build_command (s : HostState) (raw : List Char) :
    HostState × Except CommandError Command :=
  let signed := s.sign_commands
  let line_number := s.line_counter
  ({ s with line_counter := s.line_counter + 1 },
    Command.build line_number raw signed)

/-- `GCodeHost._enqueue`: returns false during shutdown; otherwise draws
a task sequence number, wraps the command in a `SendTask` with the given
priority and pushes it. -/
def enqueueTask (s : HostState) (cmd : Command) (priority : TaskPriority) :
    HostState × Bool :=
  if s.shutdown_signal then (s, false)
  else
    let task : SendTask := ⟨priority, s.task_counter, cmd⟩
    ({ s with task_counter := s.task_counter + 1,
              send_queue := s.send_queue ++ [task] }, true)

/-- The `RuntimeError` outcomes of `GCodeHost.enqueue`. -/
inductive EnqueueError where
  | shutdown
  | multipleCommands
  deriving Repr, DecidableEq

/-- `GCodeHost.enqueue`: raises `RuntimeError` during shutdown; builds a
command (drawing a line number), pushing it at NORMAL priority on
success; absorbs `EmptyCommand` into a false return; re-raises
`MultipleCommands` as `RuntimeError`.  Returns the state next to the
outcome so that the counter effects stay observable on every path. -/
def enqueue (s : HostState) (raw : List Char) :
    HostState × Except EnqueueError Bool :=
  if s.shutdown_signal then (s, .error .shutdown)
  else
    let r := build_command s raw
    match r.2 with
    | .ok cmd =>
        let e := enqueueTask r.1 cmd .normal
        (e.1, .ok e.2)
    | .error .emptyCommand => (r.1, .ok false)
    | .error .multipleCommands => (r.1, .error .multipleCommands)

/-- Runs a sequence of `enqueue` calls, keeping the state of each step. -/
def enqueueRun (s : HostState) (raws : List (List Char)) : HostState :=
  raws.foldl (fun st raw => (enqueue st raw).1) s

/-- `GCodeHost._enqueue_resend`: fetches the command recorded for the
line number (`KeyError` propagates when absent) and re-queues it at
SYSTEM priority. -/
def enqueue_resend (s : HostState) (line_number : Int) :
    Except Unit HostState :=
  match s.send_history.fetch line_number with
  | .error e => .error e
  | .ok cmd => .ok (enqueueTask s cmd .system).1

/-- `GCodeHost._handle_device_resend`: re-enqueue from history, then
`quota.reclaim()` and `clear_signal.set()`; a fetch failure propagates
before the reclaim happens. -/
def handle_device_resend (s : HostState) (line_number : Int) :
    Except Unit HostState :=
  match enqueue_resend s line_number with
  | .error e => .error e
  | .ok s1 =>
      .ok { s1 with send_quota := s1.send_quota.reclaim,
                    clear_signal := true }

/-- `GCodeHost._force_host_shutdown`: sets `shutdown_signal`, clears
`online_signal`, sets `clear_signal`, purges the send queue and flushes
the quota. -/
def force_host_shutdown (s : HostState) : HostState :=
  { s with shutdown_signal := true, online_signal := false,
           clear_signal := true, send_queue := [],
           send_quota := s.send_quota.flush }

/-- What the receiver loop dispatches while handling one message. -/
inductive Dispatched where
  | deviceResendEvent (line_number : Int)
  | hostExceptionEvent
  deriving Repr, DecidableEq

/-- The receiver-side handling of a `DeviceResend(n)` message:
`_handle_incoming_message` runs `_handle_device_resend` and then
dispatches the event; an exception instead propagates to `_run_receiver`,
whose handler calls `_handle_host_exception` — forcing shutdown and
dispatching a `HostExceptionEvent`. -/
def receiver_on_resend (s : HostState) (line_number : Int) :
    HostState × List Dispatched :=
  match handle_device_resend s line_number with
  | .ok s' => (s', [.deviceResendEvent line_number])
  | .error _ => (force_host_shutdown s, [.hostExceptionEvent])

end GCodeHost

end Gscrib

namespace Gscrib

namespace QuotaTracker

theorem inv_init (max_bytes : Int) (q : QuotaTracker)
    (h : init max_bytes = .ok q) : Inv q := by
  unfold init at h
  by_cases hm : max_bytes ≤ 0
  · simp [hm] at h
  · simp [hm] at h
    subst h
    refine ⟨by simpa using le_of_not_le hm, by simp, by simp⟩

theorem inv_consume (q : QuotaTracker) (size : Int) (h : Inv q) :
    Inv (q.consume size) := by
  obtain ⟨h0, hsum, hpos⟩ := h
  unfold consume
  by_cases h1 : size ≤ 0
  · simpa [h1] using ⟨h0, hsum, hpos⟩
  · by_cases h2 : q.max_bytes < size
    · simpa [h1, h2] using ⟨h0, hsum, hpos⟩
    · by_cases h3 : q.free_bytes < size
      · simpa [h1, h2, h3] using ⟨h0, hsum, hpos⟩
      · simp only [h1, h2, h3, if_false]
        refine ⟨?_, ?_, ?_⟩
        · dsimp only
          omega
        · dsimp only
          rw [List.sum_append]
          simp only [List.sum_cons, List.sum_nil]
          omega
        · dsimp only
          intro s hs
          rcases List.mem_append.mp hs with hs' | hs'
          · exact hpos s hs'
          · simp only [List.mem_singleton] at hs'
            omega

theorem inv_reclaim (q : QuotaTracker) (h : Inv q) : Inv q.reclaim := by
  obtain ⟨h0, hsum, hpos⟩ := h
  unfold reclaim
  rcases hq : q.in_flight with _ | ⟨size, rest⟩
  · rw [hq] at hsum
    simp only [List.sum_nil, add_zero] at hsum
    exact ⟨h0, by rw [hq]; simpa using hsum, hpos⟩
  · rw [hq] at hsum hpos
    simp only [List.sum_cons] at hsum
    refine ⟨?_, ?_, ?_⟩
    · dsimp only
      have := hpos size (by simp)
      omega
    · dsimp only
      omega
    · dsimp only
      intro s hs
      exact hpos s (by simp [hs])

theorem inv_flush (q : QuotaTracker) (h : Inv q) : Inv q.flush := by
  obtain ⟨h0, hsum, hpos⟩ := h
  have hsum' : 0 ≤ q.in_flight.sum := by
    apply List.sum_nonneg
    intro x hx
    exact le_of_lt (hpos x hx)
  refine ⟨?_, ?_, ?_⟩
  · dsimp only [flush]
    omega
  · simp [flush]
  · simp [flush]

theorem inv_step (q : QuotaTracker) (op : Op) (h : Inv q) :
    Inv (q.step op) := by
  cases op with
  | consume size => exact inv_consume q size h
  | reclaim => exact inv_reclaim q h
  | join => exact h
  | flush => exact inv_flush q h

theorem inv_run (q : QuotaTracker) (ops : List Op) (h : Inv q) :
    Inv (q.run ops) := by
  induction ops generalizing q with
  | nil => exact h
  | cons op rest ih => exact ih (q.step op) (inv_step q op h)

end QuotaTracker

/-- C2: QuotaTracker invariant.  In every state reachable from
construction with any positive `max_bytes` by any sequence of `consume`,
`reclaim`, `join` and `flush` operations, `0 ≤ free_bytes ≤ max_bytes` and
`free_bytes` plus the sum of the sizes recorded in `in_flight` equals
`max_bytes`. -/
theorem quota_tracker_invariant (max_bytes : Int) (q0 : QuotaTracker)
    (ops : List QuotaTracker.Op)
    (hinit : QuotaTracker.init max_bytes = .ok q0) :
    0 ≤ (q0.run ops).free_bytes ∧
      (q0.run ops).free_bytes ≤ (q0.run ops).max_bytes ∧
      (q0.run ops).free_bytes + (q0.run ops).in_flight.sum =
        (q0.run ops).max_bytes := by
  have h := QuotaTracker.inv_run q0 ops (QuotaTracker.inv_init max_bytes q0 hinit)
  obtain ⟨h0, hsum, hpos⟩ := h
  refine ⟨h0, ?_, hsum⟩
  have : 0 ≤ (q0.run ops).in_flight.sum := by
    apply List.sum_nonneg
    intro x hx
    exact le_of_lt (hpos x hx)
  omega

/-- C1: for a started host whose `shutdown_signal` is not set, `is_busy`
is true iff the send queue is non-empty or the quota tracker has
in-flight reservations, where `pending()` is true iff `in_flight` is
non-empty; for a host whose `shutdown_signal` is set, `is_busy` is
false. -/
theorem is_busy_spec (s : HostState) :
    (s.send_quota.pending = true ↔ s.send_quota.in_flight ≠ []) ∧
      (s.shutdown_signal = true → GCodeHost.is_busy s = false) ∧
      (s.shutdown_signal = false →
        (GCodeHost.is_busy s = true ↔
          s.send_queue ≠ [] ∨ s.send_quota.in_flight ≠ [])) := by
  refine ⟨?_, ?_, ?_⟩
  · simp [QuotaTracker.pending, List.isEmpty_iff]
  · intro h
    simp [GCodeHost.is_busy, h]
  · intro h
    simp only [GCodeHost.is_busy, h, if_false, Bool.false_eq_true]
    rcases hq : s.send_queue with _ | ⟨t, rest⟩
    · simp [QuotaTracker.pending, List.isEmpty_iff]
    · simp

/-- C1 witness: `is_busy` evaluated through the theorem on concrete
states — one shut down, one idle, one with an in-flight reservation. -/
theorem is_busy_spec_witness :
    GCodeHost.is_busy ⟨[], CommandTracker.empty 127, ⟨127, 127, []⟩,
        true, false, true, 1, 0, false⟩ = false ∧
      (GCodeHost.is_busy GCodeHost.initState = true ↔
        GCodeHost.initState.send_queue ≠ [] ∨
          GCodeHost.initState.send_quota.in_flight ≠ []) ∧
      (GCodeHost.is_busy ⟨[], CommandTracker.empty 127, ⟨127, 120, [7]⟩,
          false, true, false, 1, 0, false⟩ = true ↔
        (⟨[], CommandTracker.empty 127, ⟨127, 120, [7]⟩,
          false, true, false, 1, 0, false⟩ : HostState).send_queue ≠ [] ∨
          (⟨[], CommandTracker.empty 127, ⟨127, 120, [7]⟩,
            false, true, false, 1, 0, false⟩ :
              HostState).send_quota.in_flight ≠ []) :=
  ⟨(is_busy_spec ⟨[], CommandTracker.empty 127, ⟨127, 127, []⟩,
      true, false, true, 1, 0, false⟩).2.1 rfl,
    (is_busy_spec GCodeHost.initState).2.2 rfl,
    (is_busy_spec ⟨[], CommandTracker.empty 127, ⟨127, 120, [7]⟩,
      false, true, false, 1, 0, false⟩).2.2 rfl⟩

/-- C2 witness: the invariant evaluated on a concrete run. -/
theorem quota_tracker_invariant_witness :
    QuotaTracker.init 10 = .ok ⟨10, 10, []⟩ ∧
      (0 ≤ (QuotaTracker.run ⟨10, 10, []⟩
          [.consume 4, .consume 3, .reclaim, .consume 2, .flush,
            .consume 7]).free_bytes ∧
        (QuotaTracker.run ⟨10, 10, []⟩
          [.consume 4, .consume 3, .reclaim, .consume 2, .flush,
            .consume 7]).free_bytes ≤
          (QuotaTracker.run ⟨10, 10, []⟩
            [.consume 4, .consume 3, .reclaim, .consume 2, .flush,
              .consume 7]).max_bytes ∧
        (QuotaTracker.run ⟨10, 10, []⟩
          [.consume 4, .consume 3, .reclaim, .consume 2, .flush,
            .consume 7]).free_bytes +
            ((QuotaTracker.run ⟨10, 10, []⟩
              [.consume 4, .consume 3, .reclaim, .consume 2, .flush,
                .consume 7]).in_flight).sum =
          (QuotaTracker.run ⟨10, 10, []⟩
            [.consume 4, .consume 3, .reclaim, .consume 2, .flush,
              .consume 7]).max_bytes) :=
  ⟨rfl,
    quota_tracker_invariant 10 ⟨10, 10, []⟩
      [.consume 4, .consume 3, .reclaim, .consume 2, .flush, .consume 7]
      rfl⟩

theorem normalizeGcode_nil : normalizeGcode [] = [] := rfl

theorem Command.build_of_norm_nil (ln : Int) (raw : List Char) (sg : Bool)
    (h : normalizeGcode raw = []) :
    Command.build ln raw sg = .error .emptyCommand := by
  unfold Command.build
  by_cases hr : raw.isEmpty
  · simp [hr]
  · simp [hr, h]

theorem Command.build_of_norm_newline (ln : Int) (raw : List Char)
    (sg : Bool) (h : '\n' ∈ normalizeGcode raw) :
    Command.build ln raw sg = .error .multipleCommands := by
  have hr : raw.isEmpty = false := by
    rcases raw with _ | _
    · rw [normalizeGcode_nil] at h
      simp at h
    · rfl
  unfold Command.build
  simp [hr, h]

theorem Command.build_of_norm_ok (ln : Int) (raw : List Char) (sg : Bool)
    (h1 : normalizeGcode raw ≠ []) (h2 : '\n' ∉ normalizeGcode raw) :
    Command.build ln raw sg = .ok ⟨ln, normalizeGcode raw, sg⟩ := by
  have hr : raw.isEmpty = false := by
    rcases hraw : raw with _ | _
    · rw [hraw, normalizeGcode_nil] at h1
      simp at h1
    · rfl
  unfold Command.build
  simp [hr, h2, List.isEmpty_iff, h1]

namespace GCodeHost

theorem enqueue_shutdown_preserved (s : HostState) (raw : List Char) :
    (enqueue s raw).1.shutdown_signal = s.shutdown_signal := by
  unfold enqueue build_command enqueueTask
  by_cases hsd : s.shutdown_signal
  · simp [hsd]
  · simp only [hsd, Bool.false_eq_true, if_false]
    rcases hb : Command.build s.line_counter raw s.sign_commands with e | c
    · cases e <;> simp [hb]
    · simp [hb, hsd]

theorem enqueue_line_counter (s : HostState) (raw : List Char)
    (hsd : s.shutdown_signal = false) :
    (enqueue s raw).1.line_counter = s.line_counter + 1 := by
  unfold enqueue build_command enqueueTask
  simp only [hsd, Bool.false_eq_true, if_false]
  rcases hb : Command.build s.line_counter raw s.sign_commands with e | c
  · cases e <;> simp [hb]
  · simp [hb, hsd]

theorem enqueue_of_norm_nil (s : HostState) (raw : List Char)
    (hsd : s.shutdown_signal = false) (hnorm : normalizeGcode raw = []) :
    (enqueue s raw).2 = .ok false ∧
      (enqueue s raw).1.send_queue = s.send_queue := by
  unfold enqueue build_command
  simp only [hsd, Bool.false_eq_true, if_false]
  rw [Command.build_of_norm_nil _ _ _ hnorm]
  exact ⟨rfl, rfl⟩

theorem enqueue_queue_cases (s : HostState) (raw : List Char)
    (hsd : s.shutdown_signal = false) :
    (enqueue s raw).1.send_queue = s.send_queue ∨
      (enqueue s raw).1.send_queue = s.send_queue ++
        [⟨.normal, s.task_counter,
          ⟨s.line_counter, normalizeGcode raw, s.sign_commands⟩⟩] := by
  by_cases h1 : normalizeGcode raw = []
  · left
    unfold enqueue build_command
    simp only [hsd, Bool.false_eq_true, if_false]
    rw [Command.build_of_norm_nil _ _ _ h1]
  · by_cases h2 : '\n' ∈ normalizeGcode raw
    · left
      unfold enqueue build_command
      simp only [hsd, Bool.false_eq_true, if_false]
      rw [Command.build_of_norm_newline _ _ _ h2]
    · right
      unfold enqueue build_command enqueueTask
      simp only [hsd, Bool.false_eq_true, if_false]
      rw [Command.build_of_norm_ok _ _ _ h1 h2]

end GCodeHost

theorem GCodeHost.enqueueRun_mono (s : HostState) (raws : List (List Char))
    (hsd : s.shutdown_signal = false)
    (hq : ∀ t ∈ s.send_queue, t.command.line_number < s.line_counter)
    (hp : s.send_queue.Pairwise
      (fun a b => a.command.line_number < b.command.line_number)) :
    (∀ t ∈ (GCodeHost.enqueueRun s raws).send_queue,
      t.command.line_number < (GCodeHost.enqueueRun s raws).line_counter) ∧
      (GCodeHost.enqueueRun s raws).send_queue.Pairwise
        (fun a b => a.command.line_number < b.command.line_number) := by
  induction raws generalizing s with
  | nil => exact ⟨hq, hp⟩
  | cons raw rest ih =>
      have hsd' : (GCodeHost.enqueue s raw).1.shutdown_signal = false := by
        rw [GCodeHost.enqueue_shutdown_preserved]
        exact hsd
      have hlc := GCodeHost.enqueue_line_counter s raw hsd
      rcases GCodeHost.enqueue_queue_cases s raw hsd with hcase | hcase
      · refine ih (GCodeHost.enqueue s raw).1 hsd' ?_ ?_
        · intro t ht
          rw [hcase] at ht
          rw [hlc]
          exact lt_trans (hq t ht) (by omega)
        · rw [hcase]
          exact hp
      · refine ih (GCodeHost.enqueue s raw).1 hsd' ?_ ?_
        · intro t ht
          rw [hcase] at ht
          rw [hlc]
          rcases List.mem_append.mp ht with h | h
          · exact lt_trans (hq t h) (by omega)
          · simp only [List.mem_singleton] at h
            rw [h]
            dsimp only
            omega
        · rw [hcase]
          rw [List.pairwise_append]
          refine ⟨hp, List.pairwise_singleton _ _, ?_⟩
          intro a ha b hb
          simp only [List.mem_singleton] at hb
          rw [hb]
          exact hq a ha

/-- C9: `Host.enqueue` draws the next session line number before
validation — a non-shutdown call advances the counter by one even when it
returns false on empty-normalizing input — so the line numbers of
successfully queued commands are strictly increasing but not necessarily
consecutive (a concrete run whose first call is comments-only queues its
first command with line number 2). -/
theorem enqueue_draws_line_number_before_validation (s : HostState)
    (raw : List Char) (raws : List (List Char))
    (hsd : s.shutdown_signal = false)
    (hq : ∀ t ∈ s.send_queue, t.command.line_number < s.line_counter)
    (hp : s.send_queue.Pairwise
      (fun a b => a.command.line_number < b.command.line_number)) :
    (GCodeHost.enqueue s raw).1.line_counter = s.line_counter + 1 ∧
      (normalizeGcode raw = [] → (GCodeHost.enqueue s raw).2 = .ok false ∧
        (GCodeHost.enqueue s raw).1.line_counter = s.line_counter + 1) ∧
      (GCodeHost.enqueueRun s raws).send_queue.Pairwise
        (fun a b => a.command.line_number < b.command.line_number) ∧
      (GCodeHost.enqueueRun GCodeHost.initState
          [";C".toList, "G1 X1".toList]).send_queue.map
        (fun t => t.command.line_number) = [2] := by
  refine ⟨GCodeHost.enqueue_line_counter s raw hsd, ?_, ?_, by decide⟩
  · intro hnorm
    exact ⟨(GCodeHost.enqueue_of_norm_nil s raw hsd hnorm).1,
      GCodeHost.enqueue_line_counter s raw hsd⟩
  · exact (GCodeHost.enqueueRun_mono s raws hsd hq hp).2

/-- C9 witness: the theorem applied at the freshly initialized host,
with a comments-only call followed by two commands. -/
theorem enqueue_draws_line_number_witness :
    (GCodeHost.enqueue GCodeHost.initState
        ("(setup)".toList)).1.line_counter = 2 ∧
      (GCodeHost.enqueueRun GCodeHost.initState
        [("(setup)".toList), ("g1 x1".toList),
          ("g1 x2".toList)]).send_queue.Pairwise
        (fun a b => a.command.line_number < b.command.line_number) := by
  have h := enqueue_draws_line_number_before_validation GCodeHost.initState
    ("(setup)".toList)
    [("(setup)".toList), ("g1 x1".toList), ("g1 x2".toList)]
    rfl (by intro t ht; simp [GCodeHost.initState] at ht) (by
      simp [GCodeHost.initState])
  exact ⟨h.1, h.2.2.1⟩

/-- C7: on a `DeviceResend` event whose line number is in the command
history, the host re-enqueues the stored command at SYSTEM priority,
reclaims exactly one quota reservation and sets `clear_signal`; when the
line number is not in the history, the lookup failure propagates to the
host-exception handler, which forces shutdown and dispatches a
`HostExceptionEvent`. -/
theorem device_resend_handling (s : HostState) (n : Int) (cmd : Command)
    (hsd : s.shutdown_signal = false) :
    (s.send_history.fetch n = .ok cmd →
      GCodeHost.receiver_on_resend s n =
        ({ s with
            send_queue := s.send_queue ++ [⟨.system, s.task_counter, cmd⟩],
            task_counter := s.task_counter + 1,
            send_quota := s.send_quota.reclaim,
            clear_signal := true }, [.deviceResendEvent n]) ∧
      (s.send_quota.in_flight ≠ [] →
        (GCodeHost.receiver_on_resend s n).1.send_quota.in_flight.length + 1
          = s.send_quota.in_flight.length)) ∧
      (s.send_history.fetch n = .error () →
        GCodeHost.receiver_on_resend s n =
          (GCodeHost.force_host_shutdown s, [.hostExceptionEvent]) ∧
        (GCodeHost.receiver_on_resend s n).1.shutdown_signal = true ∧
        (GCodeHost.receiver_on_resend s n).1.send_queue = [] ∧
        (GCodeHost.receiver_on_resend s n).1.send_quota =
          s.send_quota.flush) := by
  constructor
  · intro hf
    have hmain : GCodeHost.receiver_on_resend s n =
        ({ s with
            send_queue := s.send_queue ++ [⟨.system, s.task_counter, cmd⟩],
            task_counter := s.task_counter + 1,
            send_quota := s.send_quota.reclaim,
            clear_signal := true }, [.deviceResendEvent n]) := by
      unfold GCodeHost.receiver_on_resend GCodeHost.handle_device_resend
        GCodeHost.enqueue_resend GCodeHost.enqueueTask
      rw [hf]
      simp only [hsd, Bool.false_eq_true, if_false]
    refine ⟨hmain, ?_⟩
    intro hnf
    rw [hmain]
    rcases hq : s.send_quota.in_flight with _ | ⟨x, rest⟩
    · exact absurd hq hnf
    · simp only [QuotaTracker.reclaim, hq]
      simp
  · intro hf
    have hmain : GCodeHost.receiver_on_resend s n =
        (GCodeHost.force_host_shutdown s, [.hostExceptionEvent]) := by
      unfold GCodeHost.receiver_on_resend GCodeHost.handle_device_resend
        GCodeHost.enqueue_resend
      rw [hf]
    refine ⟨hmain, ?_, ?_, ?_⟩ <;> rw [hmain] <;> rfl

/-- C7 witness: the theorem applied at a host whose history holds line 5
and one in-flight reservation — both for a resend of line 5 and for a
resend of the absent line 9. -/
theorem device_resend_handling_witness :
    (GCodeHost.receiver_on_resend
        ⟨[], ⟨[(5, ⟨5, "G1 X20".toList, true⟩)], 127⟩, ⟨127, 120, [7]⟩,
          false, true, false, 6, 3, true⟩ 5 =
      (⟨[⟨.system, 3, ⟨5, "G1 X20".toList, true⟩⟩],
          ⟨[(5, ⟨5, "G1 X20".toList, true⟩)], 127⟩, ⟨127, 127, []⟩,
          true, true, false, 6, 4, true⟩, [.deviceResendEvent 5])) ∧
      (GCodeHost.receiver_on_resend
          ⟨[], ⟨[(5, ⟨5, "G1 X20".toList, true⟩)], 127⟩, ⟨127, 120, [7]⟩,
            false, true, false, 6, 3, true⟩ 9).1.shutdown_signal = true := by
  constructor
  · have h := (device_resend_handling
      ⟨[], ⟨[(5, ⟨5, "G1 X20".toList, true⟩)], 127⟩, ⟨127, 120, [7]⟩,
        false, true, false, 6, 3, true⟩ 5 ⟨5, "G1 X20".toList, true⟩
      rfl).1 rfl
    rw [h.1]
    decide
  · exact ((device_resend_handling
      ⟨[], ⟨[(5, ⟨5, "G1 X20".toList, true⟩)], 127⟩, ⟨127, 120, [7]⟩,
        false, true, false, 6, 3, true⟩ 9 ⟨5, "G1 X20".toList, true⟩
      rfl).2 rfl).2.1

/-- C6: behaviour of `Host.enqueue(raw_gcode)` — raises `RuntimeError`
during shutdown; returns false on input whose normalization is empty,
leaving the send queue unchanged; raises `RuntimeError` when the
normalization contains a newline; otherwise pushes exactly one
NORMAL-priority task carrying the normalized command and returns true. -/
theorem enqueue_spec (s : HostState) (raw : List Char) :
    (s.shutdown_signal = true →
      GCodeHost.enqueue s raw = (s, .error .shutdown)) ∧
      (s.shutdown_signal = false → normalizeGcode raw = [] →
        (GCodeHost.enqueue s raw).2 = .ok false ∧
          (GCodeHost.enqueue s raw).1.send_queue = s.send_queue) ∧
      (s.shutdown_signal = false → '\n' ∈ normalizeGcode raw →
        (GCodeHost.enqueue s raw).2 = .error .multipleCommands ∧
          (GCodeHost.enqueue s raw).1.send_queue = s.send_queue) ∧
      (s.shutdown_signal = false → normalizeGcode raw ≠ [] →
        '\n' ∉ normalizeGcode raw →
        (GCodeHost.enqueue s raw).2 = .ok true ∧
          (GCodeHost.enqueue s raw).1.send_queue = s.send_queue ++
            [⟨.normal, s.task_counter,
              ⟨s.line_counter, normalizeGcode raw, s.sign_commands⟩⟩]) := by
  refine ⟨?_, ?_, ?_, ?_⟩
  · intro hsd
    unfold GCodeHost.enqueue
    simp [hsd]
  · intro hsd hnorm
    unfold GCodeHost.enqueue GCodeHost.build_command
    simp only [hsd, Bool.false_eq_true, if_false]
    rw [Command.build_of_norm_nil _ _ _ hnorm]
    exact ⟨rfl, rfl⟩
  · intro hsd hnl
    unfold GCodeHost.enqueue GCodeHost.build_command
    simp only [hsd, Bool.false_eq_true, if_false]
    rw [Command.build_of_norm_newline _ _ _ hnl]
    exact ⟨rfl, rfl⟩
  · intro hsd h1 h2
    unfold GCodeHost.enqueue GCodeHost.build_command GCodeHost.enqueueTask
    simp only [hsd, Bool.false_eq_true, if_false]
    rw [Command.build_of_norm_ok _ _ _ h1 h2]
    simp [hsd]

/-- C6 witness: the theorem applied at a shut-down host, a comments-only
input, a two-command input and a plain command. -/
theorem enqueue_spec_witness :
    (GCodeHost.enqueue (GCodeHost.force_host_shutdown GCodeHost.initState)
        ("G1 X1".toList) =
      (GCodeHost.force_host_shutdown GCodeHost.initState,
        .error .shutdown)) ∧
      ((GCodeHost.enqueue GCodeHost.initState ("; hello".toList)).2 =
          .ok false ∧
        (GCodeHost.enqueue GCodeHost.initState
          ("; hello".toList)).1.send_queue = []) ∧
      ((GCodeHost.enqueue GCodeHost.initState ("G1\nG2".toList)).2 =
          .error .multipleCommands ∧
        (GCodeHost.enqueue GCodeHost.initState
          ("G1\nG2".toList)).1.send_queue = []) ∧
      ((GCodeHost.enqueue GCodeHost.initState ("g1 x10".toList)).2 =
          .ok true ∧
        (GCodeHost.enqueue GCodeHost.initState
            ("g1 x10".toList)).1.send_queue =
          [⟨.normal, 0, ⟨1, "G1 X10".toList, false⟩⟩]) := by
  refine ⟨?_, ?_, ?_, ?_⟩
  · exact (enqueue_spec _ _).1 rfl
  · exact (enqueue_spec GCodeHost.initState ("; hello".toList)).2.1 rfl
      (by decide)
  · exact (enqueue_spec GCodeHost.initState ("G1\nG2".toList)).2.2.1 rfl
      (by decide)
  · exact (enqueue_spec GCodeHost.initState ("g1 x10".toList)).2.2.2 rfl
      (by decide) (by decide)

/-- C4: the streaming-mode table — SYNCHRONOUS waits for an
acknowledgment after each send regardless of `can_stream_commands`,
ASYNCHRONOUS never waits, and AUTOMATIC waits exactly when
`can_stream_commands` is false; under AUTOMATIC the modelled
`_prepare_for_acknowledgment` coincides with the one written in the
`src` snapshot. -/
theorem streaming_mode_semantics (cs clear : Bool) :
    waitsForAck .synchronous cs = true ∧
      waitsForAck .asynchronous cs = false ∧
      waitsForAck .automatic cs = !cs ∧
      (∀ mode : StreamingMode, prepareForAcknowledgment mode cs clear =
        if waitsForAck mode cs then false else clear) ∧
      prepareForAcknowledgment .automatic cs clear =
        prepareForAcknowledgmentSrc cs clear := by
  refine ⟨rfl, rfl, rfl, fun mode => rfl, rfl⟩

/-- C10: `DeviceFeedbackEvent.fields` never raises — it returns the map
computed by `extract_fields` when extraction succeeds and the empty map
when extraction fails with `ValueError`, as it does on a malformed `FS`
field (a `<`-prefixed line whose `FS` value has a component count other
than two). -/
theorem feedback_fields_total (msg : List Char) :
    (∀ m, extract_fields msg = .ok m → deviceFeedbackFields msg = m) ∧
      (∀ e, extract_fields msg = .error e → deviceFeedbackFields msg = []) ∧
      extract_fields ("<Idle|FS:500>".toList) = .error () ∧
      deviceFeedbackFields ("<Idle|FS:500>".toList) = [] := by
  refine ⟨?_, ?_, rfl, rfl⟩
  · intro m h
    unfold deviceFeedbackFields
    rw [h]
  · intro e h
    unfold deviceFeedbackFields
    rw [h]

/-- C10 witness: the theorem applied on a malformed message and on a
well-formed one. -/
theorem feedback_fields_total_witness :
    deviceFeedbackFields ("<Idle|FS:500>".toList) = [] ∧
      deviceFeedbackFields ("ok T:25".toList) =
        [(['T'], ⟨false, 25, 0, 0⟩)] :=
  ⟨(feedback_fields_total ("<Idle|FS:500>".toList)).2.1 () rfl,
    (feedback_fields_total ("ok T:25".toList)).1
      [(['T'], ⟨false, 25, 0, 0⟩)] (by rfl)⟩

theorem runHandlers_no_raise (l : List Handler)
    (h : ∀ x ∈ l, x.raises = false) :
    runHandlers l = (l.map Handler.hid, none) := by
  induction l with
  | nil => rfl
  | cons x rest ih =>
      have hx : x.raises = false := h x (by simp)
      simp only [runHandlers, hx, Bool.false_eq_true, if_false,
        List.map_cons]
      rw [ih (fun y hy => h y (by simp [hy]))]

theorem runHandlers_raise (pre : List Handler) (h : Handler)
    (post : List Handler) (hpre : ∀ g ∈ pre, g.raises = false)
    (hr : h.raises = true) :
    runHandlers (pre ++ h :: post) =
      (pre.map Handler.hid ++ [h.hid], some h.hid) := by
  induction pre with
  | nil =>
      simp only [List.nil_append, runHandlers, hr, if_true, List.map_nil]
  | cons g rest ih =>
      have hg : g.raises = false := hpre g (by simp)
      simp only [List.cons_append, runHandlers, hg, Bool.false_eq_true,
        if_false, List.map_cons, List.append_eq]
      rw [ih (fun y hy => hpre y (by simp [hy]))]

/-- C5 counterexample: in `EventDispatcher.dispatch` the invocation loop
has no exception guard, so with two handlers registered for the event's
own type — the first raising, the second not — the second (sibling)
handler is a collected target but is never invoked, and the exception
propagates. -/
theorem dispatch_sibling_counterexample :
    2 ∈ (collectTargets [(.hostEvent, [⟨1, true⟩, ⟨2, false⟩])]
        .hostEvent).map Handler.hid ∧
      (dispatch [(.hostEvent, [⟨1, true⟩, ⟨2, false⟩])] .hostEvent).1 =
        [1] ∧
      2 ∉ (dispatch [(.hostEvent, [⟨1, true⟩, ⟨2, false⟩])] .hostEvent).1 ∧
      (dispatch [(.hostEvent, [⟨1, true⟩, ⟨2, false⟩])] .hostEvent).2 =
        some 1 := by
  decide

/-- C5 (amended): `dispatch` collects the handlers registered for every
type of which the event is an instance — types in first-subscription
order, handlers in registration order within a type — and invokes them in
that order; when no collected handler raises they are all invoked, and
otherwise the invocations stop at the first raising handler, whose
exception propagates to the caller, leaving the remaining sibling
handlers uninvoked. -/
theorem dispatch_spec (subs : Subscriptions) (cls : EventType) :
    ((∀ h ∈ collectTargets subs cls, h.raises = false) →
      dispatch subs cls = ((collectTargets subs cls).map Handler.hid,
        none)) ∧
      (∀ (pre : List Handler) (h : Handler) (post : List Handler),
        collectTargets subs cls = pre ++ h :: post →
        (∀ g ∈ pre, g.raises = false) → h.raises = true →
        dispatch subs cls = (pre.map Handler.hid ++ [h.hid],
          some h.hid)) := by
  constructor
  · intro hall
    unfold dispatch
    exact runHandlers_no_raise _ hall
  · intro pre h post hsplit hpre hr
    unfold dispatch
    rw [hsplit]
    exact runHandlers_raise pre h post hpre hr

/-- C5 witness: the amended theorem applied on a registry with a
`DeviceEvent` base-class subscription fanned out to a `DeviceReadyEvent`,
without and with a raising handler. -/
theorem dispatch_spec_witness :
    dispatch [(.deviceEvent, [⟨1, false⟩, ⟨2, false⟩]),
        (.deviceReadyEvent, [⟨3, false⟩])] .deviceReadyEvent =
      ([1, 2, 3], none) ∧
      dispatch [(.deviceEvent, [⟨1, false⟩, ⟨4, true⟩, ⟨2, false⟩])]
          .deviceReadyEvent = ([1, 4], some 4) :=
  ⟨(dispatch_spec [(.deviceEvent, [⟨1, false⟩, ⟨2, false⟩]),
      (.deviceReadyEvent, [⟨3, false⟩])] .deviceReadyEvent).1 (by decide),
    (dispatch_spec [(.deviceEvent, [⟨1, false⟩, ⟨4, true⟩, ⟨2, false⟩])]
      .deviceReadyEvent).2 [⟨1, false⟩] ⟨4, true⟩ [⟨2, false⟩] (by decide)
      (by decide) rfl⟩

namespace CommandTracker

theorem trimOldest_eq_drop (limit : Nat) (l : List (Int × Command)) :
    trimOldest limit l = l.drop (l.length - limit) := by
  induction l with
  | nil => simp [trimOldest]
  | cons x rest ih =>
      rw [trimOldest]
      by_cases h : limit < (x :: rest).length
      · simp only [h, if_true]
        rw [ih]
        have hlen : (x :: rest).length - limit = (rest.length - limit) + 1 := by
          simp only [List.length_cons]
          simp only [List.length_cons] at h
          omega
        rw [hlen, List.drop_succ_cons]
      · simp only [h, if_false]
        have hlen : (x :: rest).length - limit = 0 := by
          simp only [List.length_cons]
          simp only [List.length_cons, not_lt] at h
          omega
        rw [hlen, List.drop_zero]

theorem record_length_le (t : CommandTracker) (cmd : Command) :
    (t.record cmd).entries.length ≤ t.limit := by
  unfold record
  rw [trimOldest_eq_drop]
  rw [List.length_drop]
  omega

theorem record_limit (t : CommandTracker) (cmd : Command) :
    (t.record cmd).limit = t.limit := rfl

theorem record_replace (t : CommandTracker) (cmd : Command)
    (hlen : t.entries.length ≤ t.limit)
    (hmem : containsKey t.entries cmd.line_number = true) :
    (t.record cmd).entries = t.entries.map
      (fun e => if e.1 = cmd.line_number then (e.1, cmd) else e) := by
  unfold record setEntry
  rw [hmem, if_pos rfl, trimOldest_eq_drop, List.length_map]
  have hz : t.entries.length - t.limit = 0 := by omega
  rw [hz, List.drop_zero]

theorem record_fresh (t : CommandTracker) (cmd : Command)
    (hmem : containsKey t.entries cmd.line_number = false) :
    (t.record cmd).entries =
      trimOldest t.limit (t.entries ++ [(cmd.line_number, cmd)]) := by
  unfold record setEntry
  rw [hmem]
  rfl

theorem fold_record_limit (t : CommandTracker) (cs : List Command) :
    (cs.foldl record t).limit = t.limit := by
  induction cs generalizing t with
  | nil => rfl
  | cons c rest ih => exact (ih (t.record c)).trans (record_limit t c)

theorem drop_snoc_shift {α : Type} (ps : List α) (p : α) (k : Nat) :
    (ps.drop (ps.length - k) ++ [p]).drop
        ((ps.drop (ps.length - k)).length + 1 - k) =
      (ps ++ [p]).drop (ps.length + 1 - k) := by
  rcases Nat.lt_or_ge ps.length k with hmk | hmk
  · have h2 : (ps.drop (ps.length - k)).length + 1 - k = 0 := by
      rw [List.length_drop]
      omega
    have h1 : ps.length - k = 0 := by omega
    have h3 : ps.length + 1 - k = 0 := by omega
    rw [h2, h1, h3, List.drop_zero, List.drop_zero, List.drop_zero]
  · rcases Nat.eq_zero_or_pos k with hk0 | hk0
    · subst hk0
      have hc : (ps.drop (ps.length - 0)).length + 1 - 0 = 1 := by
        rw [List.length_drop]
        omega
      have h1 : ps.drop (ps.length - 0) = [] := by
        apply List.drop_eq_nil_of_le
        omega
      rw [hc, h1, List.nil_append]
      have h2 : ps.length + 1 - 0 = (ps ++ [p]).length := by
        rw [List.length_append]
        simp
      rw [h2, List.drop_length]
      rfl
    · have hc : (ps.drop (ps.length - k)).length + 1 - k = 1 := by
        rw [List.length_drop]
        omega
      rw [hc]
      have hk1 : 1 ≤ (ps.drop (ps.length - k)).length := by
        rw [List.length_drop]
        omega
      rw [List.drop_append_of_le_length hk1, List.drop_drop]
      have h5 : ps.length + 1 - k ≤ ps.length := by omega
      rw [List.drop_append_of_le_length h5]
      have h6 : ps.length - k + 1 = ps.length + 1 - k := by omega
      rw [h6]

theorem record_fold_distinct (k : Nat) (cs : List Command)
    (hnd : (cs.map Command.line_number).Nodup) :
    (cs.foldl record (empty k)).entries =
      (cs.map fun c => (c.line_number, c)).drop (cs.length - k) := by
  induction cs using List.reverseRecOn with
  | nil => simp [empty]
  | append_singleton cs' c ih =>
      have hnd' : (cs'.map Command.line_number).Nodup := by
        rw [List.map_append] at hnd
        exact (List.nodup_append.mp hnd).1
      have hfresh : c.line_number ∉ cs'.map Command.line_number := by
        rw [List.map_append] at hnd
        intro hin
        rcases List.nodup_append.mp hnd with ⟨_, _, hdisj⟩
        exact hdisj hin (by simp)
      have ht := ih hnd'
      have hlim : (cs'.foldl record (empty k)).limit = k :=
        fold_record_limit (empty k) cs'
      set t := cs'.foldl record (empty k) with hdef
      have hfold : ((cs' ++ [c]).foldl record (empty k)) = t.record c := by
        rw [List.foldl_append]
        rfl
      have hkey : containsKey t.entries c.line_number = false := by
        rcases hck : containsKey t.entries c.line_number with _ | _
        · rfl
        · exfalso
          unfold containsKey at hck
          rcases List.any_eq_true.mp hck with ⟨e, he, heq⟩
          rw [ht] at he
          have he' := List.mem_of_mem_drop he
          rcases List.mem_map.mp he' with ⟨c', hc', rfl⟩
          apply hfresh
          rw [← (by simpa using heq : c'.line_number = c.line_number)]
          exact List.mem_map_of_mem Command.line_number hc'
      set ps := cs'.map fun c => (c.line_number, c) with hps
      have hlenps : ps.length = cs'.length := List.length_map _ _
      rw [hfold, record_fresh t c hkey, trimOldest_eq_drop, hlim, ht]
      have hLcount : (List.drop (cs'.length - k) ps ++
          [(c.line_number, c)]).length =
          (ps.drop (ps.length - k)).length + 1 - 0 := by
        rw [List.length_append, hlenps]
        simp
      have hps' : cs'.length - k = ps.length - k := by rw [hlenps]
      rw [hps']
      have hmap : (cs' ++ [c]).map (fun c => (c.line_number, c)) =
          ps ++ [(c.line_number, c)] := by
        rw [List.map_append, List.map_cons, List.map_nil, hps]
      rw [hmap]
      have hlen' : (cs' ++ [c]).length = ps.length + 1 := by
        rw [List.length_append, hlenps]
        rfl
      rw [hlen']
      have hcount : (List.drop (ps.length - k) ps ++
          [(c.line_number, c)]).length - k =
          (ps.drop (ps.length - k)).length + 1 - k := by
        rw [List.length_append]
        rfl
      rw [hcount]
      exact drop_snoc_shift ps (c.line_number, c) k

end CommandTracker

/-- C8: for every `CommandTracker` with capacity `k`: after each `record`
the number of entries is at most `k`; recording a command whose line
number is already present replaces it in place, preserving the original
insertion position; and after `k + 1` records with pairwise-distinct line
numbers exactly the newest `k` are retained — the eviction order equals
the insertion order — so `fetch` of the evicted oldest line number
fails. -/
theorem command_tracker_spec (k : Nat) :
    (∀ (t : CommandTracker) (cmd : Command), t.limit = k →
      (t.record cmd).entries.length ≤ k) ∧
      (∀ (t : CommandTracker) (cmd : Command), t.limit = k →
        t.entries.length ≤ k →
        CommandTracker.containsKey t.entries cmd.line_number = true →
        (t.record cmd).entries = t.entries.map
          (fun e => if e.1 = cmd.line_number then (e.1, cmd) else e)) ∧
      (∀ (c₀ : Command) (rest : List Command),
        (c₀ :: rest).length = k + 1 →
        ((c₀ :: rest).map Command.line_number).Nodup →
        ((c₀ :: rest).foldl CommandTracker.record
            (CommandTracker.empty k)).entries =
          rest.map (fun c => (c.line_number, c)) ∧
        ((c₀ :: rest).foldl CommandTracker.record
            (CommandTracker.empty k)).fetch c₀.line_number = .error ()) := by
  refine ⟨?_, ?_, ?_⟩
  · intro t cmd hlim
    rw [← hlim]
    exact CommandTracker.record_length_le t cmd
  · intro t cmd hlim hlen hmem
    exact CommandTracker.record_replace t cmd (by omega) hmem
  · intro c₀ rest hlen hnd
    have hmain := CommandTracker.record_fold_distinct k (c₀ :: rest) hnd
    have hdrop : ((c₀ :: rest).map fun c => (c.line_number, c)).drop
        ((c₀ :: rest).length - k) = rest.map fun c => (c.line_number, c) := by
      rw [hlen]
      have h1 : k + 1 - k = 1 := by omega
      rw [h1, List.map_cons, List.drop_succ_cons, List.drop_zero]
    rw [hdrop] at hmain
    refine ⟨hmain, ?_⟩
    unfold CommandTracker.fetch
    rw [hmain]
    have hnone : (rest.map fun c => (c.line_number, c)).find?
        (fun e => e.1 = c₀.line_number) = none := by
      apply List.find?_eq_none.mpr
      intro e he
      rcases List.mem_map.mp he with ⟨c', hc', rfl⟩
      simp only [decide_eq_true_eq]
      intro heq
      rw [List.map_cons, List.nodup_cons] at hnd
      exact hnd.1 (heq ▸ List.mem_map_of_mem Command.line_number hc')
    rw [hnone]

/-- C8 witness: the theorem applied with capacity 2 — a record on a full
tracker, an in-place replacement, and three distinct records from
empty. -/
theorem command_tracker_spec_witness :
    ((CommandTracker.record ⟨[(1, ⟨1, ['A'], false⟩),
        (2, ⟨2, ['B'], false⟩)], 2⟩ ⟨3, ['C'], false⟩).entries.length ≤ 2) ∧
      ((CommandTracker.record ⟨[(1, ⟨1, ['A'], false⟩),
          (2, ⟨2, ['B'], false⟩)], 2⟩ ⟨1, ['D'], false⟩).entries =
        [(1, ⟨1, ['D'], false⟩), (2, ⟨2, ['B'], false⟩)]) ∧
      (([⟨1, ['A'], false⟩, ⟨2, ['B'], false⟩,
          ⟨3, ['C'], false⟩] : List Command).foldl CommandTracker.record
            (CommandTracker.empty 2)).fetch 1 = .error () := by
  refine ⟨?_, ?_, ?_⟩
  · exact (command_tracker_spec 2).1
      ⟨[(1, ⟨1, ['A'], false⟩), (2, ⟨2, ['B'], false⟩)], 2⟩
      ⟨3, ['C'], false⟩ rfl
  · have h := (command_tracker_spec 2).2.1
      ⟨[(1, ⟨1, ['A'], false⟩), (2, ⟨2, ['B'], false⟩)], 2⟩
      ⟨1, ['D'], false⟩ rfl (by decide) (by decide)
    rw [h]
    decide
  · exact ((command_tracker_spec 2).2.2 ⟨1, ['A'], false⟩
      [⟨2, ['B'], false⟩, ⟨3, ['C'], false⟩] rfl (by decide)).2

theorem char_ofNat_digit_toNat (d : Nat) (h : d < 10) :
    (Char.ofNat (48 + d)).toNat = 48 + d := by
  interval_cases d <;> rfl

theorem isDigitChar_ofNat (d : Nat) (h : d < 10) :
    isDigitChar (Char.ofNat (48 + d)) = true := by
  interval_cases d <;> rfl

theorem natDecF_fuel_irrelevant (n : Nat) : ∀ fuel, n < fuel →
    natDecF fuel n = natDecF (n + 1) n := by
  induction n using Nat.strong_induction_on with
  | _ n ih =>
      intro fuel hf
      rcases fuel with _ | f
      · omega
      · rcases n with _ | m
        · rfl
        · show natDecF (f + 1) (m + 1) = natDecF (m + 2) (m + 1)
          rw [natDecF, natDecF]
          by_cases h : m + 1 < 10
          · rw [if_pos h, if_pos h]
          · rw [if_neg h, if_neg h]
            have hdiv : (m + 1) / 10 < m + 1 :=
              Nat.div_lt_self (by omega) (by omega)
            rw [ih ((m + 1) / 10) hdiv f (by omega),
              ih ((m + 1) / 10) hdiv (m + 1) (by omega)]

theorem natDec_unfold (n : Nat) : natDec n =
    if n < 10 then [Char.ofNat (48 + n)]
    else natDec (n / 10) ++ [Char.ofNat (48 + n % 10)] := by
  show natDecF (n + 1) n = _
  rw [natDecF]
  by_cases h : n < 10
  · rw [if_pos h, if_pos h]
  · rw [if_neg h, if_neg h]
    have hdiv : n / 10 < n := Nat.div_lt_self (by omega) (by omega)
    rw [natDecF_fuel_irrelevant (n / 10) n hdiv]
    rfl

theorem natDec_digits (n : Nat) : ∀ c ∈ natDec n, isDigitChar c = true := by
  induction n using Nat.strong_induction_on with
  | _ n ih =>
      rw [natDec_unfold]
      by_cases h : n < 10
      · rw [if_pos h]
        intro c hc
        simp only [List.mem_singleton] at hc
        subst hc
        exact isDigitChar_ofNat n h
      · rw [if_neg h]
        intro c hc
        rcases List.mem_append.mp hc with h1 | h1
        · exact ih (n / 10) (Nat.div_lt_self (by omega) (by omega)) c h1
        · simp only [List.mem_singleton] at h1
          subst h1
          exact isDigitChar_ofNat (n % 10) (Nat.mod_lt _ (by omega))

theorem natDec_ne_nil (n : Nat) : natDec n ≠ [] := by
  rw [natDec_unfold]
  by_cases h : n < 10 <;> simp [h]

theorem digitsToNat_append (l : List Char) (c : Char) :
    digitsToNat (l ++ [c]) = 10 * digitsToNat l + (c.toNat - 48) := by
  unfold digitsToNat
  rw [List.foldl_append]
  rfl

theorem digitsToNat_natDec (n : Nat) : digitsToNat (natDec n) = n := by
  induction n using Nat.strong_induction_on with
  | _ n ih =>
      rw [natDec_unfold]
      by_cases h : n < 10
      · rw [if_pos h]
        unfold digitsToNat
        simp only [List.foldl_cons, List.foldl_nil]
        rw [char_ofNat_digit_toNat n h]
        omega
      · rw [if_neg h]
        rw [digitsToNat_append,
          ih (n / 10) (Nat.div_lt_self (by omega) (by omega)),
          char_ofNat_digit_toNat (n % 10) (Nat.mod_lt _ (by omega))]
        omega

theorem takeWhile_append_stop (p : Char → Bool) (l : List Char) (x : Char)
    (r : List Char) (hl : ∀ c ∈ l, p c = true) (hx : p x = false) :
    (l ++ x :: r).takeWhile p = l := by
  induction l with
  | nil => simp [List.takeWhile_cons, hx]
  | cons a rest ih =>
      have ha : p a = true := hl a (by simp)
      simp only [List.cons_append, List.takeWhile_cons, ha, if_true]
      rw [ih (fun c hc => hl c (by simp [hc]))]

theorem dropOpt_of_ne (c x : Char) (xs : List Char) (h : x ≠ c) :
    dropOpt c (x :: xs) = x :: xs := by
  simp [dropOpt, h]

theorem intDec_ofNat (n : Nat) : intDec (n : Int) = natDec n := by
  unfold intDec
  simp

theorem digit_ne_colon (c : Char) (h : isDigitChar c = true) : c ≠ ':' := by
  intro heq
  subst heq
  exact absurd h (by decide)

theorem digit_ne_star (c : Char) (h : isDigitChar c = true) : c ≠ '*' := by
  intro heq
  subst heq
  exact absurd h (by decide)

theorem tryLineNumberAt_numbered (n : Nat) (rest : List Char)
    (hrest : isDigitChar (rest.headD ' ') = false) :
    tryLineNumberAt ('N' :: natDec n ++ rest) = some (natDec n) := by
  unfold tryLineNumberAt
  have h1 : dropOpt 'N' ('N' :: (natDec n ++ rest)) = natDec n ++ rest := by
    simp [dropOpt]
  rw [List.cons_append, h1]
  obtain ⟨d, ds, hdec⟩ := List.exists_cons_of_ne_nil (natDec_ne_nil n)
  have hd : isDigitChar d = true := natDec_digits n d (by rw [hdec]; simp)
  have h2 : dropOpt ':' (natDec n ++ rest) = natDec n ++ rest := by
    rw [hdec, List.cons_append]
    exact dropOpt_of_ne ':' d (ds ++ rest) (digit_ne_colon d hd)
  rw [h2]
  have h3 : (natDec n ++ rest).takeWhile isDigitChar = natDec n := by
    rcases hr : rest with _ | ⟨x, xs⟩
    · rw [List.append_nil]
      apply List.takeWhile_eq_self_iff.mpr
      exact natDec_digits n
    · exact takeWhile_append_stop isDigitChar (natDec n) x xs
        (natDec_digits n) (by rw [hr] at hrest; simpa using hrest)
  rw [h3]
  simp [List.isEmpty_iff, natDec_ne_nil n]

theorem extract_line_number_numbered (n : Nat) (rest : List Char)
    (hrest : isDigitChar (rest.headD ' ') = false) :
    extract_line_number ('N' :: natDec n ++ rest) = (n : Int) := by
  unfold extract_line_number
  have h := tryLineNumberAt_numbered n rest hrest
  rw [List.cons_append] at h ⊢
  rw [searchLineNumber, h]
  dsimp only
  rw [digitsToNat_natDec]

/-- C3: for every command with `signed = true`, line number `n` and
ASCII, normalized, `*`-free instruction `I`, `format_line` produces
exactly `N{n} {I}*{c}` with `c` the XOR of the ASCII bytes of
`N{n} {I}`; `extract_line_number` recovers `n` from the formatted
line, and the XOR of the bytes before the `*` equals `c`. -/
theorem signed_command_roundtrip (n : Nat) (I : List Char)
    (hascii : ∀ c ∈ I, c.toNat < 128)
    (hnorm : normalizeGcode I = I) (hne : I ≠ [])
    (hstar : '*' ∉ I) :
    Command.format_line ⟨(n : Int), I, true⟩ =
      ('N' :: natDec n ++ ' ' :: I) ++ '*' ::
        natDec (xorChecksum ('N' :: natDec n ++ ' ' :: I)) ∧
      extract_line_number (Command.format_line ⟨(n : Int), I, true⟩) =
        (n : Int) ∧
      xorChecksum ((Command.format_line ⟨(n : Int), I, true⟩).takeWhile
        (fun c => c ≠ '*')) =
        xorChecksum ('N' :: natDec n ++ ' ' :: I) := by
  have hfmt : Command.format_line ⟨(n : Int), I, true⟩ =
      ('N' :: natDec n ++ ' ' :: I) ++ '*' ::
        natDec (xorChecksum ('N' :: natDec n ++ ' ' :: I)) := by
    unfold Command.format_line Command.formatWithChecksum
      Command.numberedLine
    simp only [if_true]
    rw [intDec_ofNat]
  refine ⟨hfmt, ?_, ?_⟩
  · rw [hfmt]
    rw [show ('N' :: natDec n ++ ' ' :: I) ++ '*' ::
        natDec (xorChecksum ('N' :: natDec n ++ ' ' :: I)) =
      'N' :: natDec n ++ (' ' :: (I ++ '*' ::
        natDec (xorChecksum ('N' :: natDec n ++ ' ' :: I)))) from by simp]
    exact extract_line_number_numbered n _ (by rfl)
  · rw [hfmt]
    have htake : ((('N' :: natDec n ++ ' ' :: I) ++ '*' ::
        natDec (xorChecksum ('N' :: natDec n ++ ' ' :: I))).takeWhile
          (fun c => c ≠ '*')) = 'N' :: natDec n ++ ' ' :: I := by
      apply takeWhile_append_stop
      · intro c hc
        simp only [List.cons_append, List.mem_cons,
          List.mem_append] at hc
        rcases hc with rfl | hc
        · decide
        · rcases hc with hc | hc
          · simpa using digit_ne_star c (natDec_digits n c hc)
          · rcases hc with rfl | hc
            · decide
            · simp only [decide_eq_true_eq, ne_eq]
              intro heq
              exact hstar (heq ▸ hc)
      · decide
    rw [htake]

/-- C3 witness: the round-trip evaluated on the signed command
`N5 G1 X10*84`. -/
theorem signed_command_roundtrip_witness :
    Command.format_line ⟨((5 : Nat) : Int), "G1 X10".toList, true⟩ =
      "N5 G1 X10*84".toList ∧
      extract_line_number (Command.format_line
        ⟨((5 : Nat) : Int), "G1 X10".toList, true⟩) = ((5 : Nat) : Int) ∧
      xorChecksum ((Command.format_line ⟨((5 : Nat) : Int),
        "G1 X10".toList, true⟩).takeWhile (fun c => c ≠ '*')) =
        xorChecksum ('N' :: natDec 5 ++ ' ' :: "G1 X10".toList) := by
  have h := signed_command_roundtrip 5 ("G1 X10".toList) (by decide)
    (by decide) (by decide) (by decide)
  exact ⟨by rw [h.1]; decide, h.2.1, h.2.2⟩

end Gscrib
